import Mathlib

/-!
Verification of the filtering, scoring and selection engine of the
arXiv-newsletter pipeline (`arxiv_newsletter/filter.py` and
`arxiv_newsletter/config.py`).

The Python code is shallowly embedded:
* strings are Lean `String`s (lists of characters); Python's `sub in s`
  substring test is list-infix on the character data; `str.lower` is
  character-wise `Char.toLower` (the ASCII fragment of Python's `lower`,
  matching the ASCII reading of the regex classes `\w` and `\s`);
* floats are embedded as exact rationals `ℚ`;
* the scikit-learn TF-IDF vectorizer together with the cosine-similarity
  computation (an external library call wrapped in `try/except` in
  `compute_similarity_scores`) is abstracted as a `vectorize` parameter
  returning `Except String (List ℚ)`; the surrounding control flow
  (empty-input guards, fail-soft exception handling) is embedded from the
  source;
* `print` calls and the human-readable float formatting `{x:.2f}` are not
  modelled (the `match_reason` trail is built with `toString` instead);
* Python's stable `list.sort(key=..., reverse=True)` is `List.mergeSort`
  with the reversed comparison, which is likewise stable.
-/

namespace ArxivNewsletter

/-- A fetched paper (`Paper` in `fetcher.py`): the fields the
filter/scoring engine reads, plus the two fields it writes
(`score`, `match_reason`). -/
structure Paper where
  title : String
  abstract : String
  authors : List String
  categories : List String
  primaryCategory : String := ""
  score : ℚ := 0
  matchReason : String := ""
deriving DecidableEq, Repr

/-- The configuration values `PaperFilter` reads through the `Config`
properties (values as seen after loading/validation, with the
`selection_mode` default `"threshold"` already resolved). -/
structure FilterConfig where
  authors : List String
  keywords : List String
  authorWeight : ℚ
  minSimilarityScore : ℚ
  maxPapers : Nat
  selectionMode : String
  useSemanticSimilarity : Bool
  maxAuthors : Nat
  minAuthors : Nat
  excludeKeywords : List String
  excludeCategories : List String
deriving Repr

/-- Python `str.lower()` (character-wise, ASCII fragment). -/
def strLower (s : String) : String :=
  ⟨s.data.map Char.toLower⟩

/-- Python `sub in s`: contiguous-substring test. -/
def strContains (s sub : String) : Bool :=
  decide (sub.data <:+: s.data)

/-- The regex class `\w` of `re.sub(r'[^\w\s]', ' ', ...)` (ASCII reading):
letters, digits and underscore. -/
def isWordChar (c : Char) : Bool :=
  c.isAlphanum || c == '_'

/-- `re.sub(r'[^\w\s]', ' ', cs)`: every character that is neither a word
character nor whitespace becomes a single space. -/
def subPunct (cs : List Char) : List Char :=
  cs.map (fun c => if isWordChar c || c.isWhitespace then c else ' ')

/-- `re.sub(r'\s+', ' ', cs)`: each maximal whitespace run becomes one
space (emitted at the end of the run, which yields the same string). -/
def squeezeWs : List Char → List Char
  | [] => []
  | [c] => if c.isWhitespace then [' '] else [c]
  | c :: d :: cs =>
    if c.isWhitespace then
      if d.isWhitespace then squeezeWs (d :: cs)
      else ' ' :: squeezeWs (d :: cs)
    else c :: squeezeWs (d :: cs)

/-- Python `str.strip()`: drop leading and trailing whitespace. -/
def stripWs (cs : List Char) : List Char :=
  ((cs.dropWhile Char.isWhitespace).reverse.dropWhile Char.isWhitespace).reverse

/-- `PaperFilter._normalize_author_name`: lower-case, replace punctuation
by spaces, collapse whitespace runs, trim. -/
def normalizeAuthorName (name : String) : String :=
  ⟨stripWs (squeezeWs (subPunct (name.data.map Char.toLower)))⟩

/-- The inner loop of `PaperFilter._author_matches`: does any normalized
target stand in mutual-substring relation with this normalized author? -/
def anyTargetMatch (normalized : String) (normalizedTargets : List String) : Bool :=
  normalizedTargets.any (fun target =>
    strContains normalized target || strContains target normalized)

/-- The outer loop of `PaperFilter._author_matches`, returning the first
matching (original) paper-author name. -/
def authorMatchesGo (normalizedTargets : List String) : List String → Bool × String
  | [] => (false, "")
  | author :: rest =>
    if anyTargetMatch (normalizeAuthorName author) normalizedTargets then (true, author)
    else authorMatchesGo normalizedTargets rest

/-- `PaperFilter._author_matches`. -/
def authorMatches (paperAuthors targetAuthors : List String) : Bool × String :=
  authorMatchesGo (targetAuthors.map normalizeAuthorName) paperAuthors

/-- `PaperFilter._keyword_matches`: the keywords (in list order) whose
lower-cased form occurs in the lower-cased text, with their count. -/
def keywordMatches (text : String) (keywords : List String) : Nat × List String :=
  let matched := keywords.filter (fun k => strContains (strLower text) (strLower k))
  (matched.length, matched)

/-- `f"{paper.title} {paper.abstract}"`. -/
def searchText (p : Paper) : String :=
  p.title ++ " " ++ p.abstract

/-- First exclusion rule: `max_authors > 0 and len(authors) > max_authors`. -/
def failsMaxAuthors (cfg : FilterConfig) (p : Paper) : Bool :=
  decide (0 < cfg.maxAuthors) && decide (cfg.maxAuthors < p.authors.length)

/-- Second exclusion rule: `min_authors > 0 and len(authors) < min_authors`. -/
def failsMinAuthors (cfg : FilterConfig) (p : Paper) : Bool :=
  decide (0 < cfg.minAuthors) && decide (p.authors.length < cfg.minAuthors)

/-- Third exclusion rule: some blocked keyword occurs (case-insensitively)
in `title + " " + abstract`.  (The `if self.config.exclude_keywords:`
guard in the source is subsumed: `any` over an empty list is `false`.) -/
def failsExcludeKeywords (cfg : FilterConfig) (p : Paper) : Bool :=
  cfg.excludeKeywords.any (fun k => strContains (strLower (searchText p)) (strLower k))

/-- Fourth exclusion rule: some category starts with a blocked category
prefix. -/
def failsExcludeCategories (cfg : FilterConfig) (p : Paper) : Bool :=
  p.categories.any (fun c => cfg.excludeCategories.any (fun e => c.startsWith e))

/-- The per-rule exclusion counters of `PaperFilter._apply_exclusions`. -/
structure ExclusionTally where
  maxAuthors : Nat := 0
  minAuthors : Nat := 0
  keywords : Nat := 0
  categories : Nat := 0
deriving DecidableEq, Repr

/-- `PaperFilter._apply_exclusions`: survivors in input order, plus one
tally bucket per rejected paper, buckets tried in the fixed source order
(authors-max, authors-min, keywords, categories).  The source accumulates
the counters in a forward loop; since the counters are plain sums the
recursion below produces the identical result. -/
def applyExclusions (cfg : FilterConfig) : List Paper → List Paper × ExclusionTally
  | [] => ([], {})
  | p :: ps =>
    let (rest, t) := applyExclusions cfg ps
    if failsMaxAuthors cfg p then (rest, { t with maxAuthors := t.maxAuthors + 1 })
    else if failsMinAuthors cfg p then (rest, { t with minAuthors := t.minAuthors + 1 })
    else if failsExcludeKeywords cfg p then (rest, { t with keywords := t.keywords + 1 })
    else if failsExcludeCategories cfg p then (rest, { t with categories := t.categories + 1 })
    else (p :: rest, t)

/-- A paper passes the exclusion filter iff all four rules pass. -/
def passesExclusions (cfg : FilterConfig) (p : Paper) : Bool :=
  !failsMaxAuthors cfg p && !failsMinAuthors cfg p &&
    !failsExcludeKeywords cfg p && !failsExcludeCategories cfg p

/-- `PaperFilter.compute_similarity_scores`.  The TF-IDF fit/transform and
cosine-similarity block (external scikit-learn code inside the `try`) is
the `vectorize` argument; an `Except.error` result plays the role of the
caught exception.  Empty reference corpus or empty candidate list short-
circuits to all-zero scores before any vectorization. -/
def computeSimilarityScores
    (vectorize : List Paper → List Paper → Except String (List ℚ))
    (papers referencePapers : List Paper) : List ℚ :=
  if referencePapers.isEmpty || papers.isEmpty then List.replicate papers.length 0
  else
    match vectorize papers referencePapers with
    | .ok sims => sims
    | .error _ => List.replicate papers.length 0

/-- Author contribution of the composite score: `author_weight` on a
match, else nothing. -/
def authorContribution (cfg : FilterConfig) (authorMatch : Bool) : ℚ :=
  if authorMatch then cfg.authorWeight else 0

/-- Keyword contribution: `min(keyword_count * 0.2, 0.5)` when any keyword
matched, else nothing. -/
def keywordContribution (keywordCount : Nat) : ℚ :=
  if 0 < keywordCount then min ((keywordCount : ℚ) * (0.2 : ℚ)) (0.5 : ℚ) else 0

/-- Similarity contribution: `sim_score * (1 - author_weight)`, only when
a similarity array was computed. -/
def similarityContribution (cfg : FilterConfig) (sim : Option ℚ) : ℚ :=
  match sim with
  | some v => v * (1 - cfg.authorWeight)
  | none => 0

/-- The per-paper body of the scoring loop in `PaperFilter.filter_and_rank`
(lines 234-267): computes the composite score and the reason trail, and
returns the updated paper together with the local `author_match` flag. -/
def scoreOne (cfg : FilterConfig) (sim : Option ℚ) (p : Paper) : Paper × Bool :=
  let am := authorMatches p.authors cfg.authors
  let km := keywordMatches (searchText p) cfg.keywords
  let score := authorContribution cfg am.1 + keywordContribution km.1
    + similarityContribution cfg sim
  let reasons : List String :=
    (if am.1 then ["Author: " ++ am.2] else [])
    ++ (if 0 < km.1 then ["Keywords: " ++ String.intercalate ", " km.2] else [])
    ++ (match sim with
        | some v => if (0.3 : ℚ) < v then ["Similarity: " ++ toString v] else []
        | none => [])
  ({ p with
      score := score,
      matchReason := if reasons.isEmpty then "Category match" else String.intercalate "; " reasons },
   am.1)

/-- The scoring loop over `enumerate(papers)`; `similarity_scores[i]` is
total in the source because the numpy array has exactly one entry per
paper, so the out-of-range default of `getD` is never exercised there. -/
def scoreAll (cfg : FilterConfig) (simScores : Option (List ℚ)) (papers : List Paper) :
    List (Paper × Bool) :=
  papers.enum.map (fun e => scoreOne cfg (simScores.map (fun l => l.getD e.1 0)) e.2)

/-- The selection step of the scoring loop: in `"threshold"` mode keep a
paper iff `score >= min_similarity_score or author_match`; in any other
mode (fill) keep every paper. -/
def passesSelection (cfg : FilterConfig) (e : Paper × Bool) : Bool :=
  if cfg.selectionMode = "threshold" then
    decide (cfg.minSimilarityScore ≤ e.1.score) || e.2
  else true

/-- `sort(key=lambda p: p.score, reverse=True)`: stable descending
comparison. -/
def scoreDesc (a b : Paper) : Bool :=
  decide (b.score ≤ a.score)

/-- `PaperFilter.filter_and_rank`.  `reference_papers = None` is the empty
list. -/
def filterAndRank (cfg : FilterConfig)
    (vectorize : List Paper → List Paper → Except String (List ℚ))
    (papers referencePapers : List Paper) : List Paper :=
  if papers.isEmpty then []
  else
    let kept := (applyExclusions cfg papers).1
    if kept.isEmpty then []
    else
      let simScores :=
        if cfg.useSemanticSimilarity && !referencePapers.isEmpty then
          some (computeSimilarityScores vectorize kept referencePapers)
        else none
      let scored := scoreAll cfg simScores kept
      let survivors := (scored.filter (passesSelection cfg)).map Prod.fst
      (survivors.mergeSort scoreDesc).take cfg.maxPapers

/-- The raw configuration values inspected by `Config._validate_config`
(`config.py` lines 96-117).  The two `isinstance(..., list)` checks on
`authors`/`categories` cannot fail in this typed embedding and are
omitted; `selection_mode` is the raw dictionary entry, `none` when the
key is absent. -/
structure RawConfigValues where
  daysBack : Int
  maxPapers : Int
  minSimilarityScore : ℚ
  authorWeight : ℚ
  selectionMode : Option String
deriving DecidableEq, Repr

/-- `Config._validate_config`: the checks in source order; an `error`
result models the raised `ValueError` (construction fails, no pipeline
runs). -/
def validateConfig (c : RawConfigValues) : Except String Unit :=
  if c.daysBack < 1 then .error "days_back must be at least 1"
  else if c.maxPapers < 1 then .error "max_papers must be at least 1"
  else if ¬(0 ≤ c.minSimilarityScore ∧ c.minSimilarityScore ≤ 1) then
    .error "min_similarity_score must be between 0 and 1"
  else if ¬(0 ≤ c.authorWeight ∧ c.authorWeight ≤ 1) then
    .error "author_weight must be between 0 and 1"
  else if ¬(c.selectionMode = some "threshold" ∨ c.selectionMode = some "fill"
      ∨ c.selectionMode = none) then
    .error "selection_mode must be threshold or fill"
  else .ok ()

/-- Modelled from the spec (for the comparison in claim C4): the keyword
contribution computed from the number of **distinct** matched target
keywords, `min(0.2 * distinct_count, 0.5)`. -/
def keywordContributionSpec (text : String) (keywords : List String) : ℚ :=
  min ((((keywords.filter
      (fun k => strContains (strLower text) (strLower k))).dedup).length : ℚ)
    * (0.2 : ℚ)) (0.5 : ℚ)


/-! ### Helper lemmas: author-name normalization (claim C8) -/

lemma char_toNat_ofNat (n : Nat) (h : n < 0xd800) : (Char.ofNat n).toNat = n := by
  unfold Char.ofNat
  rw [dif_pos (Or.inl (by exact_mod_cast h))]
  rfl

lemma toLower_idem (c : Char) : c.toLower.toLower = c.toLower := by
  unfold Char.toLower
  by_cases h : c.toNat ≥ 65 ∧ c.toNat ≤ 90
  · rw [if_pos h]
    have h1 : (Char.ofNat (c.toNat + 32)).toNat = c.toNat + 32 :=
      char_toNat_ofNat _ (by omega)
    rw [if_neg (by omega)]
  · rw [if_neg h, if_neg h]

lemma mem_squeezeWs : ∀ (l : List Char), ∀ c ∈ squeezeWs l,
    c = ' ' ∨ (c ∈ l ∧ c.isWhitespace = false)
  | [] => by simp [squeezeWs]
  | [a] => by
    intro c hc
    rw [squeezeWs] at hc
    by_cases ha : a.isWhitespace
    · rw [if_pos ha] at hc
      simp only [List.mem_singleton] at hc
      exact Or.inl hc
    · rw [if_neg ha] at hc
      simp only [List.mem_singleton] at hc
      subst hc
      exact Or.inr ⟨List.mem_singleton_self _, by simpa using ha⟩
  | a :: b :: l => by
    intro c hc
    rw [squeezeWs] at hc
    by_cases ha : a.isWhitespace
    · rw [if_pos ha] at hc
      by_cases hb : b.isWhitespace
      · rw [if_pos hb] at hc
        rcases mem_squeezeWs (b :: l) c hc with h | ⟨h1, h2⟩
        · exact Or.inl h
        · exact Or.inr ⟨List.mem_cons_of_mem _ h1, h2⟩
      · rw [if_neg hb] at hc
        rcases List.mem_cons.mp hc with h | h
        · exact Or.inl h
        · rcases mem_squeezeWs (b :: l) c h with h2 | ⟨h1, h2⟩
          · exact Or.inl h2
          · exact Or.inr ⟨List.mem_cons_of_mem _ h1, h2⟩
    · rw [if_neg ha] at hc
      rcases List.mem_cons.mp hc with h | h
      · subst h
        exact Or.inr ⟨List.mem_cons_self _ _, by simpa using ha⟩
      · rcases mem_squeezeWs (b :: l) c h with h2 | ⟨h1, h2⟩
        · exact Or.inl h2
        · exact Or.inr ⟨List.mem_cons_of_mem _ h1, h2⟩

/-- No two adjacent whitespace characters. -/
def NoAdjWs (l : List Char) : Prop :=
  List.Chain' (fun a b => a.isWhitespace = false ∨ b.isWhitespace = false) l

lemma head?_squeezeWs_cons_of_not_ws {b : Char} (l : List Char)
    (hb : b.isWhitespace = false) : (squeezeWs (b :: l)).head? = some b := by
  rcases l with _ | ⟨e, l⟩
  · rw [squeezeWs, if_neg (by simp [hb])]
    rfl
  · rw [squeezeWs, if_neg (by simp [hb])]
    rfl

lemma noAdjWs_squeezeWs : ∀ (l : List Char), NoAdjWs (squeezeWs l)
  | [] => by simp [squeezeWs, NoAdjWs]
  | [a] => by
    rw [NoAdjWs, squeezeWs]
    by_cases ha : a.isWhitespace
    · rw [if_pos ha]
      exact List.chain'_singleton _
    · rw [if_neg ha]
      exact List.chain'_singleton _
  | a :: b :: l => by
    rw [NoAdjWs, squeezeWs]
    have ih := noAdjWs_squeezeWs (b :: l)
    by_cases ha : a.isWhitespace
    · rw [if_pos ha]
      by_cases hb : b.isWhitespace
      · rw [if_pos hb]
        exact ih
      · rw [if_neg hb]
        apply List.chain'_cons'.mpr
        refine ⟨?_, ih⟩
        intro x hx
        rw [head?_squeezeWs_cons_of_not_ws l (by simpa using hb)] at hx
        cases hx
        exact Or.inr (by simpa using hb)
    · rw [if_neg ha]
      apply List.chain'_cons'.mpr
      exact ⟨fun x _ => Or.inl (by simpa using ha), ih⟩

lemma squeezeWs_eq_self : ∀ {l : List Char},
    (∀ c ∈ l, c.isWhitespace = true → c = ' ') → NoAdjWs l → squeezeWs l = l
  | [], _, _ => by simp [squeezeWs]
  | [a], h1, _ => by
    rw [squeezeWs]
    by_cases ha : a.isWhitespace
    · rw [if_pos ha, h1 a (List.mem_singleton_self _) ha]
    · rw [if_neg ha]
  | a :: b :: l, h1, h2 => by
    rw [squeezeWs]
    have htail : squeezeWs (b :: l) = b :: l :=
      squeezeWs_eq_self (fun c hc hw => h1 c (List.mem_cons_of_mem _ hc) hw)
        (List.Chain'.tail h2)
    by_cases ha : a.isWhitespace
    · have hb : b.isWhitespace = false := by
        rcases (List.chain'_cons.mp h2).1 with h | h
        · rw [ha] at h
          exact absurd h (by simp)
        · exact h
      rw [if_pos ha, if_neg (by simp [hb]), htail, h1 a (List.mem_cons_self _ _) ha]
    · rw [if_neg ha, htail]

lemma subPunct_eq_self {l : List Char}
    (h : ∀ c ∈ l, (isWordChar c || c.isWhitespace) = true) : subPunct l = l := by
  unfold subPunct
  rw [List.map_congr_left (fun c hc => if_pos (h c hc))]
  exact List.map_id' l

lemma mapLower_eq_self {l : List Char}
    (h : ∀ c ∈ l, c.toLower = c) : l.map Char.toLower = l := by
  rw [List.map_congr_left h]
  exact List.map_id' l

lemma mem_subPunct {l : List Char} :
    ∀ c ∈ subPunct l, c = ' ' ∨ (c ∈ l ∧ (isWordChar c || c.isWhitespace) = true) := by
  intro c hc
  unfold subPunct at hc
  rcases List.mem_map.mp hc with ⟨d, hd, hcd⟩
  by_cases h : (isWordChar d || d.isWhitespace) = true
  · rw [if_pos h] at hcd
    exact Or.inr ⟨hcd ▸ hd, hcd ▸ h⟩
  · rw [if_neg h] at hcd
    exact Or.inl hcd.symm

lemma dropWhile_eq_self_of_head {p : Char → Bool} {l : List Char}
    (h : ∀ c, l.head? = some c → p c = false) : l.dropWhile p = l := by
  rcases l with _ | ⟨a, l⟩
  · rfl
  · exact List.dropWhile_cons_of_neg (by simp [h a rfl])

lemma stripWs_within (l : List Char) : stripWs l <:+: l := by
  unfold stripWs
  obtain ⟨s, hs⟩ := List.dropWhile_suffix (l := l) Char.isWhitespace
  have h2 : ((List.dropWhile Char.isWhitespace l).reverse.dropWhile Char.isWhitespace).reverse
      <+: List.dropWhile Char.isWhitespace l := by
    apply List.reverse_suffix.mp
    rw [List.reverse_reverse]
    exact List.dropWhile_suffix _
  obtain ⟨t, ht⟩ := h2
  refine ⟨s, t, ?_⟩
  rw [List.append_assoc, ht]
  exact hs

lemma stripWs_getLast {l : List Char} {c : Char}
    (h : (stripWs l).getLast? = some c) : c.isWhitespace = false := by
  unfold stripWs at h
  rw [List.getLast?_reverse] at h
  have := List.head?_dropWhile_not Char.isWhitespace (List.dropWhile Char.isWhitespace l).reverse
  rw [h] at this
  simpa using this

lemma stripWs_head {l : List Char} {c : Char}
    (h : (stripWs l).head? = some c) : c.isWhitespace = false := by
  unfold stripWs at h
  rw [List.head?_reverse] at h
  rcases List.dropWhile_suffix (l := (List.dropWhile Char.isWhitespace l).reverse)
      Char.isWhitespace with ⟨t, ht⟩
  have h2 : ((List.dropWhile Char.isWhitespace l).reverse).getLast? = some c := by
    rw [← ht, List.getLast?_append, h]
    rfl
  rw [List.getLast?_reverse] at h2
  have := List.head?_dropWhile_not Char.isWhitespace l
  rw [h2] at this
  simpa using this

lemma stripWs_eq_self {l : List Char}
    (hh : ∀ c, l.head? = some c → c.isWhitespace = false)
    (hl : ∀ c, l.getLast? = some c → c.isWhitespace = false) : stripWs l = l := by
  unfold stripWs
  rw [dropWhile_eq_self_of_head hh]
  rw [dropWhile_eq_self_of_head (by intro c hc; rw [List.head?_reverse] at hc; exact hl c hc)]
  exact List.reverse_reverse l

lemma normalize_idem_data (s : List Char) :
    stripWs (squeezeWs (subPunct
      ((stripWs (squeezeWs (subPunct (s.map Char.toLower)))).map Char.toLower)))
      = stripWs (squeezeWs (subPunct (s.map Char.toLower))) := by
  set q := squeezeWs (subPunct (s.map Char.toLower)) with hq
  set r := stripWs q with hr
  have hrq : r ⊆ q := (stripWs_within q).subset
  have hqchars : ∀ c ∈ q, c = ' ' ∨
      (c.isWhitespace = false ∧ (isWordChar c || c.isWhitespace) = true ∧ c.toLower = c) := by
    intro c hc
    rcases mem_squeezeWs _ c hc with h | ⟨h1, h2⟩
    · exact Or.inl h
    · rcases mem_subPunct c h1 with h3 | ⟨h3, h4⟩
      · exact Or.inl h3
      · refine Or.inr ⟨h2, h4, ?_⟩
        rcases List.mem_map.mp h3 with ⟨d, _, hcd⟩
        rw [← hcd]
        exact toLower_idem d
  have hrchars : ∀ c ∈ r, c = ' ' ∨
      (c.isWhitespace = false ∧ (isWordChar c || c.isWhitespace) = true ∧ c.toLower = c) :=
    fun c hc => hqchars c (hrq hc)
  have hlow : r.map Char.toLower = r := by
    apply mapLower_eq_self
    intro c hc
    rcases hrchars c hc with h | ⟨_, _, h⟩
    · rw [h]
      decide
    · exact h
  have hpunct : subPunct r = r := by
    apply subPunct_eq_self
    intro c hc
    rcases hrchars c hc with h | ⟨_, h, _⟩
    · rw [h]
      decide
    · exact h
  have hsq : squeezeWs r = r := by
    apply squeezeWs_eq_self
    · intro c hc hw
      rcases hrchars c hc with h | ⟨h1, _, _⟩
      · exact h
      · rw [hw] at h1
        exact absurd h1 (by simp)
    · exact List.Chain'.infix (noAdjWs_squeezeWs _) (stripWs_within q)
  have hstrip : stripWs r = r :=
    stripWs_eq_self (fun c hc => stripWs_head hc) (fun c hc => stripWs_getLast hc)
  rw [hlow, hpunct, hsq, hstrip]

/-- **C8** Author-name normalization is idempotent:
`normalize(normalize(x)) == normalize(x)` for every string `x`, where
`normalize` lower-cases, replaces punctuation with single spaces,
collapses whitespace runs, and trims
(`PaperFilter._normalize_author_name`). -/
theorem normalizeAuthorName_idem (s : String) :
    normalizeAuthorName (normalizeAuthorName s) = normalizeAuthorName s := by
  unfold normalizeAuthorName
  exact congrArg String.mk (normalize_idem_data s.data)


/-! ### Helper lemmas: substring tests and the exclusion filter -/

lemma strContains_empty (s : String) : strContains s "" = true := by
  unfold strContains
  apply decide_eq_true
  have h : ("" : String).data = ([] : List Char) := rfl
  rw [h]
  exact ⟨[], s.data, by simp⟩

lemma applyExclusions_fst (cfg : FilterConfig) :
    ∀ papers : List Paper,
      (applyExclusions cfg papers).1 = papers.filter (passesExclusions cfg) := by
  intro papers
  induction papers with
  | nil => rfl
  | cons p ps ih =>
    simp only [applyExclusions]
    rcases hra : applyExclusions cfg ps with ⟨rest, t⟩
    rw [hra] at ih
    replace ih : rest = List.filter (passesExclusions cfg) ps := ih
    subst ih
    by_cases h1 : failsMaxAuthors cfg p
    · simp [h1, List.filter_cons, passesExclusions]
    · by_cases h2 : failsMinAuthors cfg p
      · simp [h1, h2, List.filter_cons, passesExclusions]
      · by_cases h3 : failsExcludeKeywords cfg p
        · simp [h1, h2, h3, List.filter_cons, passesExclusions]
        · by_cases h4 : failsExcludeCategories cfg p
          · simp [h1, h2, h3, h4, List.filter_cons, passesExclusions]
          · simp [h1, h2, h3, h4, List.filter_cons, passesExclusions]

lemma applyExclusions_tally (cfg : FilterConfig) :
    ∀ papers : List Paper,
      (applyExclusions cfg papers).2 =
        { maxAuthors := (papers.filter (fun p => failsMaxAuthors cfg p)).length,
          minAuthors := (papers.filter
            (fun p => !failsMaxAuthors cfg p && failsMinAuthors cfg p)).length,
          keywords := (papers.filter
            (fun p => !failsMaxAuthors cfg p && !failsMinAuthors cfg p
              && failsExcludeKeywords cfg p)).length,
          categories := (papers.filter
            (fun p => !failsMaxAuthors cfg p && !failsMinAuthors cfg p
              && !failsExcludeKeywords cfg p && failsExcludeCategories cfg p)).length } := by
  intro papers
  induction papers with
  | nil => rfl
  | cons p ps ih =>
    simp only [applyExclusions]
    rcases hra : applyExclusions cfg ps with ⟨rest, t⟩
    rw [hra] at ih
    replace ih : t = _ := ih
    subst ih
    by_cases h1 : failsMaxAuthors cfg p
    · simp [h1, List.filter_cons]
    · by_cases h2 : failsMinAuthors cfg p
      · simp [h1, h2, List.filter_cons]
      · by_cases h3 : failsExcludeKeywords cfg p
        · simp [h1, h2, h3, List.filter_cons]
        · by_cases h4 : failsExcludeCategories cfg p
          · simp [h1, h2, h3, h4, List.filter_cons]
          · simp [h1, h2, h3, h4, List.filter_cons]

lemma exclusion_partition (cfg : FilterConfig) (papers : List Paper) :
    ((applyExclusions cfg papers).1).length
      + ((applyExclusions cfg papers).2.maxAuthors
        + (applyExclusions cfg papers).2.minAuthors
        + (applyExclusions cfg papers).2.keywords
        + (applyExclusions cfg papers).2.categories)
      = papers.length := by
  rw [applyExclusions_fst, applyExclusions_tally]
  induction papers with
  | nil => rfl
  | cons p ps ih =>
    simp only [List.filter_cons]
    by_cases h1 : failsMaxAuthors cfg p
    · simp only [passesExclusions, h1]
      simp only [List.length_cons]
      simp [passesExclusions, h1] at ih ⊢
      omega
    · by_cases h2 : failsMinAuthors cfg p
      · simp [passesExclusions, h1, h2] at ih ⊢
        omega
      · by_cases h3 : failsExcludeKeywords cfg p
        · simp [passesExclusions, h1, h2, h3] at ih ⊢
          omega
        · by_cases h4 : failsExcludeCategories cfg p
          · simp [passesExclusions, h1, h2, h3, h4] at ih ⊢
            omega
          · simp [passesExclusions, h1, h2, h3, h4] at ih ⊢
            omega

/-- **C6** In the exclusion filter, a candidate survives iff all four
rules pass (author count ≤ max when max > 0, author count ≥ min when
min > 0, no blocked keyword in `title + " " + abstract`, no category
starting with a blocked prefix); every rejected candidate is counted in
exactly one tally bucket, ties broken by the fixed order authors-max,
authors-min, keywords, categories; a candidate with 15 authors under
`max_authors = 10` is always excluded and counted under authors-max. -/
theorem exclusion_filter_spec (cfg : FilterConfig) (papers : List Paper) :
    (applyExclusions cfg papers).1 = papers.filter (passesExclusions cfg)
    ∧ (applyExclusions cfg papers).2 =
        { maxAuthors := (papers.filter (fun p => failsMaxAuthors cfg p)).length,
          minAuthors := (papers.filter
            (fun p => !failsMaxAuthors cfg p && failsMinAuthors cfg p)).length,
          keywords := (papers.filter
            (fun p => !failsMaxAuthors cfg p && !failsMinAuthors cfg p
              && failsExcludeKeywords cfg p)).length,
          categories := (papers.filter
            (fun p => !failsMaxAuthors cfg p && !failsMinAuthors cfg p
              && !failsExcludeKeywords cfg p && failsExcludeCategories cfg p)).length }
    ∧ ((applyExclusions cfg papers).1).length
        + ((applyExclusions cfg papers).2.maxAuthors
          + (applyExclusions cfg papers).2.minAuthors
          + (applyExclusions cfg papers).2.keywords
          + (applyExclusions cfg papers).2.categories)
        = papers.length
    ∧ (cfg.maxAuthors = 10 → ∀ p ∈ papers, p.authors.length = 15 →
        failsMaxAuthors cfg p = true ∧ p ∉ (applyExclusions cfg papers).1) := by
  refine ⟨applyExclusions_fst cfg papers, applyExclusions_tally cfg papers,
    exclusion_partition cfg papers, ?_⟩
  intro hmax p _ hlen
  have hf : failsMaxAuthors cfg p = true := by
    unfold failsMaxAuthors
    rw [hmax, hlen]
    decide
  refine ⟨hf, ?_⟩
  rw [applyExclusions_fst]
  intro hmem
  have := (List.mem_filter.mp hmem).2
  unfold passesExclusions at this
  rw [hf] at this
  simp at this

/-- Closed witness for `exclusion_filter_spec`, instantiating the
conditional conjunct at a concrete configuration and paper list. -/
theorem exclusion_filter_spec_witness :
    let cfg : FilterConfig :=
      { authors := [], keywords := [], authorWeight := 0.6,
        minSimilarityScore := 0.3, maxPapers := 20, selectionMode := "threshold",
        useSemanticSimilarity := true, maxAuthors := 10, minAuthors := 0,
        excludeKeywords := [], excludeCategories := [] }
    let p : Paper :=
      { title := "t", abstract := "a",
        authors := ["a1", "a2", "a3", "a4", "a5", "a6", "a7", "a8",
          "a9", "a10", "a11", "a12", "a13", "a14", "a15"],
        categories := ["astro-ph.GA"] }
    failsMaxAuthors cfg p = true ∧ p ∉ (applyExclusions cfg [p]).1 := by
  intro cfg p
  have h := (exclusion_filter_spec cfg [p]).2.2.2 rfl p (List.mem_cons_self p []) rfl
  exact h

/-- **C9** If the configured `exclude_keywords` list contains a string
that lower-cases to the empty string, the blocked-keyword rule rejects
every candidate (the empty string is a substring of every search text),
so the exclusion filter survivor set is empty for every input list. -/
theorem empty_exclude_keyword_rejects_all (cfg : FilterConfig) (papers : List Paper)
    (h : ∃ k ∈ cfg.excludeKeywords, strLower k = "") :
    (∀ p : Paper, failsExcludeKeywords cfg p = true)
    ∧ (applyExclusions cfg papers).1 = [] := by
  obtain ⟨k, hk, hlow⟩ := h
  have hall : ∀ p : Paper, failsExcludeKeywords cfg p = true := by
    intro p
    unfold failsExcludeKeywords
    apply List.any_eq_true.mpr
    exact ⟨k, hk, by rw [hlow]; exact strContains_empty _⟩
  refine ⟨hall, ?_⟩
  rw [applyExclusions_fst]
  apply List.filter_eq_nil_iff.mpr
  intro p _
  unfold passesExclusions
  rw [hall p]
  simp

/-- Closed witness for `empty_exclude_keyword_rejects_all` at a concrete
configuration containing the empty keyword and a one-paper list. -/
theorem empty_exclude_keyword_rejects_all_witness :
    let cfg : FilterConfig :=
      { authors := [], keywords := [], authorWeight := 0.6,
        minSimilarityScore := 0.3, maxPapers := 20, selectionMode := "threshold",
        useSemanticSimilarity := true, maxAuthors := 0, minAuthors := 0,
        excludeKeywords := ["physics", ""], excludeCategories := [] }
    let p : Paper :=
      { title := "Some title", abstract := "Some abstract",
        authors := ["A"], categories := ["astro-ph.GA"] }
    (applyExclusions cfg [p]).1 = [] := by
  intro cfg p
  exact (empty_exclude_keyword_rejects_all cfg [p]
    ⟨"", by decide, rfl⟩).2


/-! ### Configuration validation (claim C7) -/

/-- **C7 (amended)** `Config._validate_config` succeeds iff `days_back ≥ 1`,
`max_papers ≥ 1`, `min_similarity_score ∈ [0,1]`, `author_weight ∈ [0,1]`,
and `selection_mode` is `"threshold"`, `"fill"`, or absent.  In particular
an out-of-range `min_similarity_score` or `author_weight`, or a present
`selection_mode` other than `"threshold"`/`"fill"`, raises and the
pipeline does not run. -/
theorem validateConfig_ok_iff (c : RawConfigValues) :
    validateConfig c = .ok () ↔
      (1 ≤ c.daysBack ∧ 1 ≤ c.maxPapers
        ∧ (0 ≤ c.minSimilarityScore ∧ c.minSimilarityScore ≤ 1)
        ∧ (0 ≤ c.authorWeight ∧ c.authorWeight ≤ 1)
        ∧ (c.selectionMode = some "threshold" ∨ c.selectionMode = some "fill"
            ∨ c.selectionMode = none)) := by
  unfold validateConfig
  split_ifs with h1 h2 h3 h4 h5 <;> simp_all

/-- **C7 (counterexample)** A configuration whose `min_similarity_score`,
`author_weight` and `selection_mode` are all in range can still fail
validation: with `days_back = 0` the constructor raises, refuting the
claimed converse ("a configuration with all these in range passes
validation"). -/
theorem validateConfig_claim_counterexample :
    let c : RawConfigValues :=
      { daysBack := 0, maxPapers := 20, minSimilarityScore := 0.5,
        authorWeight := 0.5, selectionMode := some "threshold" }
    (0 ≤ c.minSimilarityScore ∧ c.minSimilarityScore ≤ 1)
    ∧ (0 ≤ c.authorWeight ∧ c.authorWeight ≤ 1)
    ∧ (c.selectionMode = some "threshold" ∨ c.selectionMode = some "fill")
    ∧ validateConfig c ≠ .ok () := by
  intro c
  refine ⟨by norm_num, by norm_num, Or.inl rfl, ?_⟩
  intro h
  have herr : validateConfig c = .error "days_back must be at least 1" := rfl
  rw [herr] at h
  exact Except.noConfusion h

/-! ### Scoring (claims C3 and C4) -/

lemma scoreOne_fst_score (cfg : FilterConfig) (sim : Option ℚ) (p : Paper) :
    ((scoreOne cfg sim p).1).score
      = authorContribution cfg (authorMatches p.authors cfg.authors).1
        + keywordContribution (keywordMatches (searchText p) cfg.keywords).1
        + similarityContribution cfg sim := rfl

lemma scoreOne_snd (cfg : FilterConfig) (sim : Option ℚ) (p : Paper) :
    (scoreOne cfg sim p).2 = (authorMatches p.authors cfg.authors).1 := rfl

lemma scoreOne_fst_authors (cfg : FilterConfig) (sim : Option ℚ) (p : Paper) :
    ((scoreOne cfg sim p).1).authors = p.authors := rfl

lemma scoreOne_fst_title (cfg : FilterConfig) (sim : Option ℚ) (p : Paper) :
    ((scoreOne cfg sim p).1).title = p.title := rfl

lemma scoreOne_fst_abstract (cfg : FilterConfig) (sim : Option ℚ) (p : Paper) :
    ((scoreOne cfg sim p).1).abstract = p.abstract := rfl

lemma authorContribution_nonneg (cfg : FilterConfig) (b : Bool)
    (h : 0 ≤ cfg.authorWeight) : 0 ≤ authorContribution cfg b := by
  unfold authorContribution
  cases b <;> simp [h]

lemma keywordContribution_nonneg (n : Nat) : 0 ≤ keywordContribution n := by
  unfold keywordContribution
  by_cases h : 0 < n
  · rw [if_pos h]
    apply le_min
    · positivity
    · norm_num
  · rw [if_neg h]

lemma similarityContribution_nonneg (cfg : FilterConfig) (sim : Option ℚ)
    (hw : cfg.authorWeight ≤ 1) (hs : ∀ v, sim = some v → 0 ≤ v) :
    0 ≤ similarityContribution cfg sim := by
  unfold similarityContribution
  cases sim with
  | none => exact le_refl 0
  | some v =>
    apply mul_nonneg (hs v rfl)
    linarith

/-- **C3** The final score is the sum of the author, keyword and
similarity contributions; under `author_weight ∈ [0,1]` and similarity
values in `[0,1]` each contribution is ≥ 0, and an author-matched
candidate with `author_weight = w` gets score ≥ w. -/
theorem score_decomposition (cfg : FilterConfig) (sim : Option ℚ) (p : Paper)
    (h1 : 0 ≤ cfg.authorWeight) (h2 : cfg.authorWeight ≤ 1)
    (h3 : ∀ v, sim = some v → 0 ≤ v ∧ v ≤ 1) :
    ((scoreOne cfg sim p).1).score
        = authorContribution cfg (authorMatches p.authors cfg.authors).1
          + keywordContribution (keywordMatches (searchText p) cfg.keywords).1
          + similarityContribution cfg sim
    ∧ 0 ≤ authorContribution cfg (authorMatches p.authors cfg.authors).1
    ∧ 0 ≤ keywordContribution (keywordMatches (searchText p) cfg.keywords).1
    ∧ 0 ≤ similarityContribution cfg sim
    ∧ ((authorMatches p.authors cfg.authors).1 = true →
        cfg.authorWeight ≤ ((scoreOne cfg sim p).1).score) := by
  have ha := authorContribution_nonneg cfg (authorMatches p.authors cfg.authors).1 h1
  have hk := keywordContribution_nonneg (keywordMatches (searchText p) cfg.keywords).1
  have hsim := similarityContribution_nonneg cfg sim h2 (fun v hv => (h3 v hv).1)
  refine ⟨scoreOne_fst_score cfg sim p, ha, hk, hsim, ?_⟩
  intro hm
  rw [scoreOne_fst_score, hm]
  unfold authorContribution
  simp only [if_true]
  linarith

/-- Closed witness for `score_decomposition` at a concrete matched
configuration and paper. -/
theorem score_decomposition_witness :
    let cfg : FilterConfig :=
      { authors := ["Smith"], keywords := ["galaxy"], authorWeight := 0.6,
        minSimilarityScore := 0.3, maxPapers := 20, selectionMode := "threshold",
        useSemanticSimilarity := true, maxAuthors := 0, minAuthors := 0,
        excludeKeywords := [], excludeCategories := [] }
    let p : Paper :=
      { title := "A galaxy survey", abstract := "stars",
        authors := ["John Smith"], categories := ["astro-ph.GA"] }
    (authorMatches p.authors cfg.authors).1 = true
    ∧ cfg.authorWeight ≤ ((scoreOne cfg (some 0.5) p).1).score := by
  intro cfg p
  have hm : (authorMatches p.authors cfg.authors).1 = true := by decide
  refine ⟨hm, ?_⟩
  exact (score_decomposition cfg (some 0.5) p (by norm_num) (by norm_num)
    (by intro v hv; cases hv; norm_num)).2.2.2.2 hm

/-- **C4 (counterexample)** The claimed formula "keyword contribution =
`min(0.2 × distinct matched keywords, 0.5)`" fails when the configured
keyword list contains duplicates: with keywords `["ai", "ai"]` and text
`"ai"` the code counts both list entries (contribution 0.4) while the
distinct count is 1 (contribution 0.2). -/
theorem keyword_distinct_claim_counterexample :
    let cfg : FilterConfig :=
      { authors := [], keywords := ["ai", "ai"], authorWeight := 0.6,
        minSimilarityScore := 0.3, maxPapers := 20, selectionMode := "threshold",
        useSemanticSimilarity := true, maxAuthors := 0, minAuthors := 0,
        excludeKeywords := [], excludeCategories := [] }
    let p : Paper :=
      { title := "ai", abstract := "", authors := [], categories := [] }
    ((scoreOne cfg none p).1).score
      ≠ authorContribution cfg (authorMatches p.authors cfg.authors).1
        + keywordContributionSpec (searchText p) cfg.keywords
        + similarityContribution cfg none := by
  intro cfg p
  rw [scoreOne_fst_score]
  have hk : (keywordMatches (searchText p) cfg.keywords).1 = 2 := by decide
  have hs : ((cfg.keywords.filter
      (fun k => strContains (strLower (searchText p)) (strLower k))).dedup).length = 1 := by
    decide
  rw [hk]
  unfold keywordContributionSpec
  rw [hs]
  norm_num [keywordContribution, similarityContribution, min_def]

/-- **C4 (amended)** The keyword contribution equals
`min(0.2 × (number of matched entries of the target keyword list), 0.5)`
(duplicate list entries count separately); it is monotone in that matched
count and never exceeds 0.5. -/
theorem keyword_contribution_amended (text : String) (keywords : List String) :
    keywordContribution (keywordMatches text keywords).1
        = min (((keywordMatches text keywords).1 : ℚ) * (0.2 : ℚ)) (0.5 : ℚ)
    ∧ keywordContribution (keywordMatches text keywords).1 ≤ (0.5 : ℚ)
    ∧ (∀ m n : Nat, m ≤ n → keywordContribution m ≤ keywordContribution n) := by
  have hmin : ∀ k : Nat, keywordContribution k = min ((k : ℚ) * (0.2 : ℚ)) (0.5 : ℚ) := by
    intro k
    unfold keywordContribution
    by_cases h : 0 < k
    · rw [if_pos h]
    · rw [if_neg h]
      have hk : k = 0 := by omega
      subst hk
      norm_num
  refine ⟨hmin _, ?_, ?_⟩
  · rw [hmin]
    exact min_le_right _ _
  · intro m n hmn
    rw [hmin, hmin]
    apply min_le_min _ (le_refl _)
    apply mul_le_mul_of_nonneg_right _ (by norm_num)
    exact_mod_cast hmn

/-- Closed witness for `keyword_contribution_amended`, discharging the
monotonicity hypothesis at concrete counts. -/
theorem keyword_contribution_amended_witness :
    keywordContribution (keywordMatches "ai text" ["ai"]).1
        = min (((keywordMatches "ai text" ["ai"]).1 : ℚ) * (0.2 : ℚ)) (0.5 : ℚ)
    ∧ keywordContribution 1 ≤ keywordContribution 4 := by
  refine ⟨(keyword_contribution_amended "ai text" ["ai"]).1, ?_⟩
  exact (keyword_contribution_amended "ai text" ["ai"]).2.2 1 4 (by omega)


/-! ### Author matching with a degenerate target (claim C10) -/

lemma authorMatchesGo_fst_of_empty_target {targets : List String} (h : "" ∈ targets) :
    ∀ authors : List String, authors ≠ [] → (authorMatchesGo targets authors).1 = true := by
  intro authors hne
  rcases authors with _ | ⟨a, rest⟩
  · exact absurd rfl hne
  · rw [authorMatchesGo]
    have hm : anyTargetMatch (normalizeAuthorName a) targets = true := by
      apply List.any_eq_true.mpr
      refine ⟨"", h, ?_⟩
      rw [strContains_empty]
      rfl
    rw [if_pos hm]

/-- **C10** If some configured target author name normalizes to the empty
string, then every candidate with a non-empty author list gets
`author_match = true` (the empty normalized target is a substring of
every normalized author name), hence the full `author_weight`
contribution, and in threshold mode such a candidate always passes
selection. -/
theorem empty_normalized_target_matches_all (cfg : FilterConfig)
    (h : "" ∈ cfg.authors.map normalizeAuthorName) :
    (∀ paperAuthors : List String, paperAuthors ≠ [] →
        (authorMatches paperAuthors cfg.authors).1 = true)
    ∧ (∀ (sim : Option ℚ) (p : Paper), p.authors ≠ [] →
        (scoreOne cfg sim p).2 = true
        ∧ authorContribution cfg (scoreOne cfg sim p).2 = cfg.authorWeight)
    ∧ (cfg.selectionMode = "threshold" →
        ∀ (scored : List (Paper × Bool)), ∀ e ∈ scored, e.2 = true →
          e ∈ scored.filter (passesSelection cfg)) := by
  have hmatch : ∀ paperAuthors : List String, paperAuthors ≠ [] →
      (authorMatches paperAuthors cfg.authors).1 = true := by
    intro pa hne
    exact authorMatchesGo_fst_of_empty_target h pa hne
  refine ⟨hmatch, ?_, ?_⟩
  · intro sim p hne
    have h2 : (scoreOne cfg sim p).2 = true := by
      rw [scoreOne_snd]
      exact hmatch p.authors hne
    refine ⟨h2, ?_⟩
    rw [h2]
    rfl
  · intro hmode scored e he he2
    apply List.mem_filter.mpr
    refine ⟨he, ?_⟩
    unfold passesSelection
    rw [if_pos hmode, he2]
    simp

/-- Closed witness for `empty_normalized_target_matches_all`: the target
list `["*!*"]` normalizes to `[""]`, so a paper with one author matches
and passes threshold selection with score 0. -/
theorem empty_normalized_target_matches_all_witness :
    let cfg : FilterConfig :=
      { authors := ["*!*"], keywords := [], authorWeight := 0.6,
        minSimilarityScore := 0.3, maxPapers := 20, selectionMode := "threshold",
        useSemanticSimilarity := true, maxAuthors := 0, minAuthors := 0,
        excludeKeywords := [], excludeCategories := [] }
    (authorMatches ["Some Author"] cfg.authors).1 = true := by
  intro cfg
  exact (empty_normalized_target_matches_all cfg (by decide)).1
    ["Some Author"] (by simp)

/-! ### The selection pipeline (claims C1, C2, C5) -/

lemma mem_scoreAll {cfg : FilterConfig} {simScores : Option (List ℚ)} {papers : List Paper} :
    ∀ e ∈ scoreAll cfg simScores papers, ∃ p ∈ papers, ∃ sim, e = scoreOne cfg sim p := by
  intro e he
  unfold scoreAll at he
  rcases List.mem_map.mp he with ⟨⟨i, p⟩, hmem, hE⟩
  refine ⟨p, ?_, _, hE.symm⟩
  have h2 : (⟨i, p⟩ : Nat × Paper).2 ∈ papers.enum.map Prod.snd :=
    List.mem_map_of_mem _ hmem
  rwa [List.enum_map_snd] at h2

lemma mem_scoreAll_none {cfg : FilterConfig} {papers : List Paper} :
    ∀ e ∈ scoreAll cfg none papers, ∃ p ∈ papers, e = scoreOne cfg none p := by
  intro e he
  unfold scoreAll at he
  rcases List.mem_map.mp he with ⟨⟨i, p⟩, hmem, hE⟩
  refine ⟨p, ?_, ?_⟩
  · have h2 : (⟨i, p⟩ : Nat × Paper).2 ∈ papers.enum.map Prod.snd :=
      List.mem_map_of_mem _ hmem
    rwa [List.enum_map_snd] at h2
  · exact hE.symm

lemma scoreAll_length (cfg : FilterConfig) (simScores : Option (List ℚ))
    (papers : List Paper) : (scoreAll cfg simScores papers).length = papers.length := by
  unfold scoreAll
  rw [List.length_map, List.enum_length]

/-- The `scored_papers` list of `filter_and_rank` right before sorting,
factored out of `filterAndRank` for the statements below. -/
def selectionSurvivors (cfg : FilterConfig)
    (vectorize : List Paper → List Paper → Except String (List ℚ))
    (papers referencePapers : List Paper) : List Paper :=
  ((scoreAll cfg
      (if cfg.useSemanticSimilarity && !referencePapers.isEmpty then
        some (computeSimilarityScores vectorize (applyExclusions cfg papers).1 referencePapers)
      else none)
      (applyExclusions cfg papers).1).filter (passesSelection cfg)).map Prod.fst

lemma filterAndRank_eq (cfg : FilterConfig)
    (vectorize : List Paper → List Paper → Except String (List ℚ))
    (papers referencePapers : List Paper) :
    filterAndRank cfg vectorize papers referencePapers
      = ((selectionSurvivors cfg vectorize papers referencePapers).mergeSort
          scoreDesc).take cfg.maxPapers := by
  unfold filterAndRank selectionSurvivors
  by_cases h0 : papers.isEmpty
  · rw [if_pos h0]
    have hp : papers = [] := List.isEmpty_iff.mp h0
    subst hp
    simp [applyExclusions, scoreAll]
  · rw [if_neg h0]
    by_cases h1 : (applyExclusions cfg papers).1.isEmpty
    · rw [if_pos h1]
      rw [List.isEmpty_iff.mp h1]
      simp [scoreAll]
    · rw [if_neg h1]

lemma mem_filterAndRank {cfg : FilterConfig}
    {vectorize : List Paper → List Paper → Except String (List ℚ)}
    {papers referencePapers : List Paper} :
    ∀ p ∈ filterAndRank cfg vectorize papers referencePapers,
      ∃ e ∈ scoreAll cfg
          (if cfg.useSemanticSimilarity && !referencePapers.isEmpty then
            some (computeSimilarityScores vectorize (applyExclusions cfg papers).1
              referencePapers)
          else none)
          (applyExclusions cfg papers).1,
        passesSelection cfg e = true ∧ p = e.1 := by
  intro p hp
  rw [filterAndRank_eq] at hp
  have hp2 : p ∈ (selectionSurvivors cfg vectorize papers referencePapers).mergeSort
      scoreDesc := List.mem_of_mem_take hp
  have hp3 : p ∈ selectionSurvivors cfg vectorize papers referencePapers :=
    List.mem_mergeSort.mp hp2
  unfold selectionSurvivors at hp3
  rcases List.mem_map.mp hp3 with ⟨e, hef, hep⟩
  rcases List.mem_filter.mp hef with ⟨hes, hepass⟩
  exact ⟨e, hes, hepass, hep.symm⟩

/-- **C5** The similarity computation never aborts the pipeline: with an
empty reference corpus or empty candidate list it returns zero for every
candidate; on vectorization failure it fails soft with zero for every
candidate; and end-to-end with an empty reference corpus every emitted
candidate score consists of the author and keyword contributions only
(zero similarity contribution). -/
theorem similarity_fail_soft (cfg : FilterConfig)
    (vectorize : List Paper → List Paper → Except String (List ℚ))
    (papers referencePapers : List Paper) (msg : String) :
    ((referencePapers = [] ∨ papers = []) →
      computeSimilarityScores vectorize papers referencePapers
        = List.replicate papers.length 0)
    ∧ (vectorize papers referencePapers = .error msg →
      computeSimilarityScores vectorize papers referencePapers
        = List.replicate papers.length 0)
    ∧ (referencePapers = [] →
      ∀ p ∈ filterAndRank cfg vectorize papers referencePapers,
        p.score = authorContribution cfg (authorMatches p.authors cfg.authors).1
          + keywordContribution (keywordMatches (searchText p) cfg.keywords).1) := by
  refine ⟨?_, ?_, ?_⟩
  · intro h
    unfold computeSimilarityScores
    rw [if_pos]
    rcases h with h | h <;> simp [h]
  · intro h
    unfold computeSimilarityScores
    by_cases h0 : (referencePapers.isEmpty || papers.isEmpty) = true
    · rw [if_pos h0]
    · rw [if_neg h0, h]
  · intro href p hp
    subst href
    rcases mem_filterAndRank p hp with ⟨e, hes, _, hpe⟩
    have hnone : (if cfg.useSemanticSimilarity && !([] : List Paper).isEmpty then
        some (computeSimilarityScores vectorize (applyExclusions cfg papers).1 [])
      else none) = none := by simp
    rw [hnone] at hes
    rcases mem_scoreAll_none e hes with ⟨q, _, hq⟩
    rw [hpe, hq, scoreOne_fst_score, scoreOne_fst_authors]
    have hst : searchText ((scoreOne cfg none q).1) = searchText q := rfl
    rw [hst]
    simp [similarityContribution]


/-- Closed witness for `similarity_fail_soft`: with an empty reference
corpus, and with a failing vectorizer, the similarity array is all
zeros. -/
theorem similarity_fail_soft_witness :
    let cfg : FilterConfig :=
      { authors := [], keywords := [], authorWeight := 0.6,
        minSimilarityScore := 0.3, maxPapers := 20, selectionMode := "threshold",
        useSemanticSimilarity := true, maxAuthors := 0, minAuthors := 0,
        excludeKeywords := [], excludeCategories := [] }
    let p : Paper := { title := "t", abstract := "a", authors := ["A"], categories := [] }
    let failVec : List Paper → List Paper → Except String (List ℚ) :=
      fun _ _ => .error "empty vocabulary"
    (computeSimilarityScores failVec [p] [] = List.replicate 1 0
      ∧ computeSimilarityScores failVec [p] [p] = List.replicate 1 0)
    ∧ cfg.useSemanticSimilarity = true := by
  intro cfg p failVec
  refine ⟨⟨?_, ?_⟩, rfl⟩
  · exact (similarity_fail_soft cfg failVec [p] [] "empty vocabulary").1 (Or.inl rfl)
  · exact (similarity_fail_soft cfg failVec [p] [p] "empty vocabulary").2.1 rfl

/-- Closed witness for `validateConfig_ok_iff` at an in-range
configuration. -/
theorem validateConfig_ok_iff_witness :
    validateConfig { daysBack := 7, maxPapers := 20, minSimilarityScore := 0.3,
                     authorWeight := 0.6, selectionMode := some "threshold" } = .ok () := by
  apply (validateConfig_ok_iff _).mpr
  refine ⟨by decide, by decide, ⟨by norm_num, by norm_num⟩, ⟨by norm_num, by norm_num⟩,
    Or.inl rfl⟩

/-- **C1** In threshold mode a scored candidate enters the selector
survivor set iff its composite score is ≥ the threshold
(`min_similarity_score`) or it had an author match; consequently every
emitted candidate satisfies `score ≥ threshold ∨ author_match`, and an
author-matched candidate survives selection regardless of its score. -/
theorem threshold_selection (cfg : FilterConfig)
    (vectorize : List Paper → List Paper → Except String (List ℚ))
    (papers referencePapers : List Paper)
    (hmode : cfg.selectionMode = "threshold") :
    (∀ (scored : List (Paper × Bool)), ∀ e ∈ scored,
        (e ∈ scored.filter (passesSelection cfg)
          ↔ (cfg.minSimilarityScore ≤ e.1.score ∨ e.2 = true)))
    ∧ (∀ p ∈ filterAndRank cfg vectorize papers referencePapers,
        cfg.minSimilarityScore ≤ p.score
          ∨ (authorMatches p.authors cfg.authors).1 = true) := by
  have hpass : ∀ e : Paper × Bool, passesSelection cfg e = true
      ↔ (cfg.minSimilarityScore ≤ e.1.score ∨ e.2 = true) := by
    intro e
    unfold passesSelection
    rw [if_pos hmode]
    simp
  refine ⟨?_, ?_⟩
  · intro scored e he
    rw [List.mem_filter]
    constructor
    · intro hf
      exact (hpass e).mp hf.2
    · intro hcond
      exact ⟨he, (hpass e).mpr hcond⟩
  · intro p hp
    rcases mem_filterAndRank p hp with ⟨e, hes, hepass, hpe⟩
    rcases mem_scoreAll e hes with ⟨q, _, sim, hq⟩
    rcases (hpass e).mp hepass with h | h
    · exact Or.inl (hpe ▸ h)
    · refine Or.inr ?_
      rw [hpe, hq, scoreOne_fst_authors, ← scoreOne_snd cfg sim q, ← hq, h]

/-- Closed witness for `threshold_selection`: an author-matched candidate
with score 0 is kept by the selection filter although the threshold is
0.3. -/
theorem threshold_selection_witness :
    let cfg : FilterConfig :=
      { authors := [], keywords := [], authorWeight := 0.6,
        minSimilarityScore := 0.3, maxPapers := 20, selectionMode := "threshold",
        useSemanticSimilarity := true, maxAuthors := 0, minAuthors := 0,
        excludeKeywords := [], excludeCategories := [] }
    let e : Paper × Bool :=
      ({ title := "t", abstract := "a", authors := ["A"], categories := [], score := 0 }, true)
    e ∈ [e].filter (passesSelection cfg) := by
  intro cfg e
  exact ((threshold_selection cfg (fun _ _ => .error "x") [] [] rfl).1
    [e] e (List.mem_singleton_self e)).mpr (Or.inr rfl)

lemma scoreDesc_trans : ∀ a b c : Paper,
    scoreDesc a b = true → scoreDesc b c = true → scoreDesc a c = true := by
  intro a b c hab hbc
  unfold scoreDesc at *
  simp only [decide_eq_true_eq] at *
  exact le_trans hbc hab

lemma scoreDesc_total : ∀ a b : Paper, (scoreDesc a b || scoreDesc b a) = true := by
  intro a b
  unfold scoreDesc
  rcases le_total a.score b.score with h | h <;> simp [h]

/-- **C2** The final output is the selection-survivor list sorted by score
descending (stable: candidates of equal score keep their original
relative order) truncated to `max_papers`: the output length never
exceeds `max_papers`, and in fill mode it equals
`min(count surviving exclusion, max_papers)`. -/
theorem selector_output_spec (cfg : FilterConfig)
    (vectorize : List Paper → List Paper → Except String (List ℚ))
    (papers referencePapers : List Paper) :
    filterAndRank cfg vectorize papers referencePapers
        = ((selectionSurvivors cfg vectorize papers referencePapers).mergeSort
            scoreDesc).take cfg.maxPapers
    ∧ (filterAndRank cfg vectorize papers referencePapers).length ≤ cfg.maxPapers
    ∧ List.Pairwise (fun a b : Paper => b.score ≤ a.score)
        (filterAndRank cfg vectorize papers referencePapers)
    ∧ (∀ q : ℚ,
        List.Sublist
          ((filterAndRank cfg vectorize papers referencePapers).filter
            (fun p => decide (p.score = q)))
          ((selectionSurvivors cfg vectorize papers referencePapers).filter
            (fun p => decide (p.score = q))))
    ∧ (cfg.selectionMode = "fill" →
        (filterAndRank cfg vectorize papers referencePapers).length
          = min ((applyExclusions cfg papers).1.length) cfg.maxPapers) := by
  rw [filterAndRank_eq]
  set survivors := selectionSurvivors cfg vectorize papers referencePapers with hsurv
  refine ⟨rfl, ?_, ?_, ?_, ?_⟩
  · rw [List.length_take]
    exact min_le_left _ _
  · have hsorted : (survivors.mergeSort scoreDesc).Pairwise
        (fun a b => scoreDesc a b = true) :=
      List.sorted_mergeSort scoreDesc_trans scoreDesc_total survivors
    have hsub : List.Sublist ((survivors.mergeSort scoreDesc).take cfg.maxPapers)
        (survivors.mergeSort scoreDesc) := List.take_sublist _ _
    refine List.Pairwise.imp ?_ (List.Pairwise.sublist hsub hsorted)
    intro a b h
    unfold scoreDesc at h
    simpa using h
  · intro q
    set c := survivors.filter (fun p => decide (p.score = q)) with hc
    have hcpw : c.Pairwise (fun a b => scoreDesc a b = true) := by
      apply List.pairwise_of_forall_mem_list
      intro a ha b hb
      have ha2 := of_decide_eq_true (List.mem_filter.mp ha).2
      have hb2 := of_decide_eq_true (List.mem_filter.mp hb).2
      unfold scoreDesc
      rw [ha2, hb2]
      simp
    have hcs : List.Sublist c survivors := List.filter_sublist _
    have hcms : List.Sublist c (survivors.mergeSort scoreDesc) :=
      List.sublist_mergeSort scoreDesc_trans scoreDesc_total hcpw hcs
    have hceq : c.filter (fun p => decide (p.score = q)) = c := by
      apply List.filter_eq_self.mpr
      intro a ha
      exact (List.mem_filter.mp ha).2
    have hfsub : List.Sublist c
        ((survivors.mergeSort scoreDesc).filter (fun p => decide (p.score = q))) := by
      rw [← hceq]
      exact List.Sublist.filter _ hcms
    have hperm : ((survivors.mergeSort scoreDesc).filter (fun p => decide (p.score = q))).Perm c := by
      rw [hc]
      exact List.Perm.filter _ (List.mergeSort_perm survivors scoreDesc)
    have hfeq : (survivors.mergeSort scoreDesc).filter (fun p => decide (p.score = q)) = c :=
      (List.Sublist.eq_of_length hfsub hperm.length_eq.symm).symm
    have hstep : List.Sublist
        (((survivors.mergeSort scoreDesc).take cfg.maxPapers).filter
          (fun p => decide (p.score = q)))
        ((survivors.mergeSort scoreDesc).filter (fun p => decide (p.score = q))) :=
      List.Sublist.filter _ (List.take_sublist _ _)
    rw [hfeq] at hstep
    exact hstep
  · intro hmode
    have hpass : ∀ e : Paper × Bool, passesSelection cfg e = true := by
      intro e
      unfold passesSelection
      rw [hmode]
      simp
    have hlen : survivors.length = ((applyExclusions cfg papers).1).length := by
      rw [hsurv]
      unfold selectionSurvivors
      rw [List.length_map, List.filter_eq_self.mpr (fun e _ => hpass e), scoreAll_length]
    rw [List.length_take, List.length_mergeSort, hlen, Nat.min_comm]

/-- Closed witness for `selector_output_spec`: fill mode with
`max_papers = 2` over three candidates passing exclusion emits exactly
`min 3 2 = 2` papers. -/
theorem selector_output_spec_witness :
    let cfg : FilterConfig :=
      { authors := [], keywords := [], authorWeight := 0.6,
        minSimilarityScore := 0.3, maxPapers := 2, selectionMode := "fill",
        useSemanticSimilarity := false, maxAuthors := 0, minAuthors := 0,
        excludeKeywords := [], excludeCategories := [] }
    let mk : String → Paper := fun t =>
      { title := t, abstract := "a", authors := ["A"], categories := [] }
    (filterAndRank cfg (fun _ _ => .error "x") [mk "p1", mk "p2", mk "p3"] []).length
      = min ((applyExclusions cfg [mk "p1", mk "p2", mk "p3"]).1.length) cfg.maxPapers := by
  intro cfg mk
  exact (selector_output_spec cfg (fun _ _ => .error "x")
    [mk "p1", mk "p2", mk "p3"] []).2.2.2.2 rfl

end ArxivNewsletter
